import Mathlib

/-!
Verification development for the TeamNorCal "mawt" portal-animation gateway.

The Go sources are shallowly embedded as executable Lean definitions:

* pure functions become Lean functions;
* in-place mutation of a structure becomes a function returning the updated
  structure;
* a Go function that can `panic` is embedded with an `Option` result, where
  `none` marks the panic;
* a Go function returning a non-nil `error` value is embedded with a `Bool`
  (or `Option`) error component;
* `time.Time` / `time.Duration` are embedded as `Int` nanosecond counts;
* Go maps keyed by strings are embedded as association lists together with a
  first-match lookup, matching Go map lookup (keys are unique by
  construction); Go map iteration order is fixed to list order in places
  where the results proved here are order-independent;
* Go channels/goroutines are embedded by making the outcome of each blocking
  interaction (a channel send succeeding, timing out, or panicking; a remote
  write failing) an explicit oracle parameter of the embedded function.
-/

namespace Mawt

/-- Time instants and durations, in nanoseconds (Go `time.Time`/`time.Duration`). -/
abbrev Time := Int

/-- Go `time.Millisecond` in nanoseconds. -/
def millisecond : Time := 1000000

/-- Go `time.Second` in nanoseconds. -/
def second : Time := 1000000000

/-- Go `image/color.RGBA`: four 8-bit channels. -/
structure RGBA where
  r : Nat
  g : Nat
  b : Nat
  a : Nat
deriving DecidableEq, Repr

/-- The zero value of `color.RGBA` (Go zero-initialised buffers). -/
def RGBA.zero : RGBA := ⟨0, 0, 0, 0⟩

/-- `RGBAFromRGBHex` (effects.go): converts a 24-bit hex colour to RGBA with
alpha `0xff`. -/
def RGBAFromRGBHex (hexColor : Nat) : RGBA :=
  ⟨hexColor / 65536 % 256, hexColor / 256 % 256, hexColor % 256, 0xff⟩

/-! ## Logical-to-physical pixel mapping (universe.go) -/

/-- `location` (universe.go): a `{board, strand, pixel}` triple identifying a
physical pixel. -/
structure location where
  board : Nat
  strand : Nat
  pixel : Nat
deriving DecidableEq, Repr

/-- The 3-level physical pixel buffer `[board][strand][pixel] → RGBA`. -/
abbrev PhysBuf := List (List (List RGBA))

/-- `PhysicalRange` (universe.go): a range of physical pixels within a single
strand. -/
structure PhysicalRange where
  Board : Nat
  Strand : Nat
  StartPixel : Nat
  Size : Nat
deriving DecidableEq, Repr

/-- `Mapping` (universe.go): physical buffer, universes (lists of locations),
and the name-to-id map (association list; keys unique by construction). -/
structure Mapping where
  physBuf : PhysBuf
  universes : List (List location)
  uniNameToIndex : List (String × Nat)
deriving DecidableEq, Repr

/-- Association-list lookup, mirroring Go map lookup (keys are unique in all
maps built by this program, so first-match lookup is exact). -/
def lookupAssoc {κ α : Type} [DecidableEq κ] (l : List (κ × α)) (key : κ) : Option α :=
  match l with
  | [] => none
  | (k, v) :: rest => if k = key then some v else lookupAssoc rest key

/-- Replace the value stored under `key`, first occurrence only; no-op when
the key is absent (callers ensure presence, mirroring Go map assignment). -/
def updateAssoc {κ α : Type} [DecidableEq κ] (l : List (κ × α)) (key : κ) (a : α) :
    List (κ × α) :=
  match l with
  | [] => []
  | (k, v) :: rest => if k = key then (key, a) :: rest else (k, v) :: updateAssoc rest key a

/-- `NewMapping` (universe.go): allocates the physical buffer from the strand
length table; no universes yet. -/
def NewMapping (dimension : List (List Nat)) : Mapping :=
  { physBuf := dimension.map (fun board => board.map (fun n => List.replicate n RGBA.zero))
    universes := []
    uniNameToIndex := [] }

/-- The locations denoted by one `PhysicalRange`, in order
(`for idx := r.StartPixel; idx < r.StartPixel+r.Size; idx++`). -/
def rangeLocations (r : PhysicalRange) : List location :=
  (List.range r.Size).map (fun k => ⟨r.Board, r.Strand, r.StartPixel + k⟩)

/-- `AddUniverse` (universe.go): fails only when the name already exists; the
new universe's location list is the concatenation of the ranges in order.
(The Go code performs no bounds check on the pixels, despite its doc
comment.) Returns the updated mapping and the Go `bool` result. -/
def Mapping.AddUniverse (m : Mapping) (name : String) (ranges : List PhysicalRange) :
    Mapping × Bool :=
  match lookupAssoc m.uniNameToIndex name with
  | some _ => (m, false)
  | none =>
    let locs := ranges.flatMap rangeLocations
    ({ m with
        universes := m.universes ++ [locs]
        uniNameToIndex := m.uniNameToIndex ++ [(name, m.universes.length)] }, true)

/-- Replace the element at index `n`, or fail (Go index-assignment panic) when
the index is out of range. -/
def setNth? {α : Type} (f : α → Option α) : List α → Nat → Option (List α)
  | [], _ => none
  | x :: xs, 0 => (f x).map (· :: xs)
  | x :: xs, n + 1 => (setNth? f xs n).map (x :: ·)

/-- Write one physical pixel: `m.physBuf[l.board][l.strand][l.pixel] = c`.
`none` marks the Go panic on an out-of-range index. -/
def writeLoc (buf : PhysBuf) (l : location) (c : RGBA) : Option PhysBuf :=
  setNth? (fun board => setNth? (fun strand => setNth? (fun _ => some c) strand l.pixel) board l.strand) buf l.board

/-- Read one physical pixel; `none` when the location is out of range. -/
def readLoc (buf : PhysBuf) (l : location) : Option RGBA :=
  buf[l.board]?.bind (fun board => board[l.strand]?.bind (fun strand => strand[l.pixel]?))

/-- The loop body of `UpdateUniverse` (universe.go lines 108-113): walk the
universe's locations; before each write, return the length error if the data
slice is exhausted; otherwise write and continue. `none` marks a panic on an
out-of-range physical location; the `Bool` is `true` when the length error is
returned. Writes made before the error are kept. -/
def updateLoop (buf : PhysBuf) (u : List location) (rgbData : List RGBA) (idx : Nat) :
    Option (PhysBuf × Bool) :=
  match u with
  | [] => some (buf, false)
  | l :: rest =>
    if rgbData.length ≤ idx then some (buf, true)
    else
      match writeLoc buf l (rgbData.getD idx RGBA.zero) with
      | none => none
      | some buf1 => updateLoop buf1 rest rgbData (idx + 1)

/-- `UpdateUniverse` (universe.go): copy `rgbData` into the universe's physical
pixels. `none` marks a Go panic (universe id out of range, or a location
outside the physical buffer); `some (m, true)` is the length error with the
partial writes kept; `some (m, false)` is success. -/
def Mapping.UpdateUniverse (m : Mapping) (id : Nat) (rgbData : List RGBA) :
    Option (Mapping × Bool) :=
  match m.universes[id]? with
  | none => none
  | some u =>
    (updateLoop m.physBuf u rgbData 0).map (fun p => ({ m with physBuf := p.1 }, p.2))

/-! ## Animation sequencer (sequence.go)

The Go `Animation` interface (`Start(t)`, `Frame(buf, t) → (buf, done)`) is
embedded as a record of functions over an abstract effect type `E` and buffer
type `B`; the sequencer is polymorphic over it, exactly as the Go code is
polymorphic over the interface.  Effect state (Go: mutation through the
`*Step` pointers stored in `currSeq.steps`) lives in the runner's `currSeq`;
the per-universe queues and the timed queue store step names, which resolve
through `currSeq` just as the Go pointers do. -/

/-- `Operation` (sequence.go): name of the step to run next, plus an optional
delay. -/
structure Operation where
  StepName : String
  Delay : Time := 0
deriving DecidableEq, Repr

/-- `Step` (sequence.go): an effect bound to one universe, with follow-on
operations. -/
structure Step (E : Type) where
  UniverseID : Nat
  Effect : E
  Next : List Operation := []
deriving DecidableEq, Repr

/-- `Step.ThenDo` (sequence.go): append a follow-on operation. -/
def Step.ThenDo {E : Type} (s : Step E) (stepName : String) (delay : Time) : Step E :=
  { s with Next := s.Next ++ [⟨stepName, delay⟩] }

/-- `Step.ThenDoImmediately` (sequence.go). -/
def Step.ThenDoImmediately {E : Type} (s : Step E) (stepName : String) : Step E :=
  s.ThenDo stepName 0

/-- `Sequence` (sequence.go): steps by name plus the initial operations.
The Go map is an association list here; all sequence builders in this program
use distinct step names. -/
structure Sequence (E : Type) where
  steps : List (String × Step E) := []
  initialOperations : List Operation := []
deriving DecidableEq, Repr

/-- `NewSequence` (sequence.go). -/
def NewSequence (E : Type) : Sequence E := {}

/-- `Sequence.AddStep` (sequence.go); names are distinct at every call site,
so appending mirrors Go map insertion. -/
def Sequence.AddStep {E : Type} (seq : Sequence E) (name : String) (step : Step E) :
    Sequence E :=
  { seq with steps := seq.steps ++ [(name, step)] }

/-- `Sequence.AddInitialOperation` (sequence.go). -/
def Sequence.AddInitialOperation {E : Type} (seq : Sequence E) (op : Operation) :
    Sequence E :=
  { seq with initialOperations := seq.initialOperations ++ [op] }

/-- `Sequence.AddInitialStep` (sequence.go): add the step and schedule it to
run immediately. -/
def Sequence.AddInitialStep {E : Type} (seq : Sequence E) (name : String) (step : Step E) :
    Sequence E :=
  (seq.AddStep name step).AddInitialOperation ⟨name, 0⟩

/-- The Go `Animation` interface: `Start` fixes the start time, `Frame`
produces the buffer contents for an instant and reports completion. -/
structure AnimationOps (E B : Type) where
  start : E → Time → E
  frame : E → B → Time → E × B × Bool

/-- `SequenceRunner` (sequence.go).  `awaitingTime` holds `(runAt, stepName)`
pairs; `activeByUniverse` is the per-universe FIFO of step names (association
list over universe ids, in creation order — the facts proved below are
independent of Go's randomized map iteration order); `buffers` is indexed by
universe id. -/
structure SequenceRunner (E B : Type) where
  awaitingTime : List (Time × String)
  activeByUniverse : List (Nat × List String)
  buffers : List B
  currSeq : Sequence E
deriving DecidableEq, Repr

/-- `NewSequenceRunner` (sequence.go): one empty queue and one buffer per
universe; `mkBuf` abstracts Go's `make([]color.RGBA, size)`. -/
def NewSequenceRunner {B : Type} (E : Type) (universeSizes : List Nat) (mkBuf : Nat → B) :
    SequenceRunner E B :=
  { awaitingTime := []
    activeByUniverse := (List.range universeSizes.length).map (fun i => (i, []))
    buffers := universeSizes.map mkBuf
    currSeq := {} }

/-- The queue for a universe (`activeByUniverse[id]`; a missing key reads as
the empty queue, as a Go map read does). -/
def SequenceRunner.queueOf {E B : Type} (sr : SequenceRunner E B) (uid : Nat) :
    List String :=
  (lookupAssoc sr.activeByUniverse uid).getD []

/-- Update the step named `name` inside a sequence to carry effect state `e`
(Go: mutation through the shared `*Step`/`Animation` pointer). -/
def Sequence.setEffect {E : Type} (seq : Sequence E) (name : String) (e : E) :
    Sequence E :=
  { seq with
      steps := seq.steps.map (fun kv => if kv.1 = name then (kv.1, { kv.2 with Effect := e }) else kv) }

/-- `startStep` (sequence.go): ensure the universe key exists, call
`Effect.Start(time.Now())` — the wall-clock oracle `wall` — and append the
step to the tail of its universe's queue. -/
def SequenceRunner.startStep {E B : Type} (ops : AnimationOps E B) (sr : SequenceRunner E B)
    (name : String) (wall : Time) : SequenceRunner E B :=
  match lookupAssoc sr.currSeq.steps name with
  | none => sr
  | some step =>
    let sr1 :=
      if (lookupAssoc sr.activeByUniverse step.UniverseID).isSome then sr
      else { sr with activeByUniverse := sr.activeByUniverse ++ [(step.UniverseID, [])] }
    let sr2 := { sr1 with currSeq := sr1.currSeq.setEffect name (ops.start step.Effect wall) }
    { sr2 with
        activeByUniverse :=
          updateAssoc sr2.activeByUniverse step.UniverseID (sr2.queueOf step.UniverseID ++ [name]) }

/-- `processOperation` (sequence.go): look the named step up in the current
sequence; unknown names are logged and ignored; a positive delay schedules at
`now + delay`, otherwise the step starts immediately. -/
def SequenceRunner.processOperation {E B : Type} (ops : AnimationOps E B)
    (sr : SequenceRunner E B) (operation : Operation) (now wall : Time) :
    SequenceRunner E B :=
  match lookupAssoc sr.currSeq.steps operation.StepName with
  | none => sr
  | some _ =>
    if 0 < operation.Delay then
      { sr with awaitingTime := sr.awaitingTime ++ [(now + operation.Delay, operation.StepName)] }
    else
      sr.startStep ops operation.StepName wall

/-- `InitSequence` (sequence.go): install the sequence, clear both queues,
then process the initial operations in order. -/
def SequenceRunner.InitSequence {E B : Type} (ops : AnimationOps E B)
    (sr : SequenceRunner E B) (seq : Sequence E) (now wall : Time) : SequenceRunner E B :=
  let sr1 : SequenceRunner E B :=
    { sr with
        currSeq := seq
        awaitingTime := []
        activeByUniverse := sr.activeByUniverse.map (fun kv => (kv.1, [])) }
  seq.initialOperations.foldl (fun s op => s.processOperation ops op now wall) sr1

/-- `handleStepComplete` (sequence.go): remove the completed step from the
head of its universe's queue, then process its follow-on operations in
declaration order. -/
def SequenceRunner.handleStepComplete {E B : Type} (ops : AnimationOps E B)
    (sr : SequenceRunner E B) (completed : Step E) (name : String) (now wall : Time) :
    SequenceRunner E B :=
  let sr1 :=
    match sr.queueOf completed.UniverseID with
    | head :: rest =>
      if head = name then
        { sr with activeByUniverse := updateAssoc sr.activeByUniverse completed.UniverseID rest }
      else sr
    | [] => sr
  completed.Next.foldl (fun s op => s.processOperation ops op now wall) sr1

/-- `checkScheduledTasks` (sequence.go): promote every scheduled step whose
`runAt` lies strictly before `now` (`now.After(runAt)`) to its universe's
queue, in list order; the remaining items keep their relative order. -/
def SequenceRunner.checkScheduledTasks {E B : Type} (ops : AnimationOps E B)
    (sr : SequenceRunner E B) (now wall : Time) : SequenceRunner E B :=
  let due := sr.awaitingTime.filter (fun it => it.1 < now)
  let kept := sr.awaitingTime.filter (fun it => ¬ it.1 < now)
  due.foldl (fun s it => s.startStep ops it.2 wall) { sr with awaitingTime := kept }

/-- The body of `ProcessFrame`'s universe loop for one universe: run the head
step's `Frame`, store the buffer and the effect state, and on completion call
`handleStepComplete`. -/
def SequenceRunner.frameHead {E B : Type} [Inhabited B] (ops : AnimationOps E B)
    (sr : SequenceRunner E B) (uid : Nat) (name : String) (now wall : Time) :
    SequenceRunner E B :=
  match lookupAssoc sr.currSeq.steps name with
  | none => sr
  | some step =>
    let res := ops.frame step.Effect (sr.buffers.getD uid default) now
    let sr1 : SequenceRunner E B :=
      { sr with buffers := sr.buffers.set uid res.2.1, currSeq := sr.currSeq.setEffect name res.1 }
    if res.2.2 then sr1.handleStepComplete ops { step with Effect := res.1 } name now wall
    else sr1

/-- The universe loop of `ProcessFrame` (sequence.go lines 282-293) over a
snapshot of the universe ids: an observed non-empty queue clears `done` and
runs the head step's frame. -/
def processFrameLoop {E B : Type} [Inhabited B] (ops : AnimationOps E B) :
    List Nat → SequenceRunner E B → Bool → Time → Time → SequenceRunner E B × Bool
  | [], sr, done, _, _ => (sr, done)
  | uid :: rest, sr, done, now, wall =>
    match sr.queueOf uid with
    | [] => processFrameLoop ops rest sr done now wall
    | name :: _ => processFrameLoop ops rest (sr.frameHead ops uid name now wall) false now wall

/-- `ProcessFrame` (sequence.go): promote due scheduled steps, then run one
frame of the head step of every universe queue; the returned flag is
`done && len(awaitingTime) == 0` where `done` records that no universe queue
was observed non-empty during the loop. -/
def SequenceRunner.ProcessFrame {E B : Type} [Inhabited B] (ops : AnimationOps E B)
    (sr : SequenceRunner E B) (now wall : Time) : SequenceRunner E B × Bool :=
  let sr1 := sr.checkScheduledTasks ops now wall
  let res := processFrameLoop ops (sr1.activeByUniverse.map Prod.fst) sr1 true now wall
  (res.1, res.2 && res.1.awaitingTime.isEmpty)

/-! ## Portal choreographer (part_004 of the repository's animation package)

The choreographer builds `Sequence`s out of concrete effect values.  The
effect constructors `NewInterpolateToHexRGB` and `NewSolid` are embedded from
`effects.go`; `NewTimedSolid` and `NewPulse` belong to an effects file of the
same package that is not under `src/` and are modelled from the spec (see
their doc comments).  Per the spec (§4.2) every effect's `Start` records the
start time; the per-frame colour generation (floating-point colour-space
blending) is irrelevant to the sequence-structure claims settled here and is
kept as an explicit parameter `fr`. -/

/-- The parameters of the portal animation package's effect values.
`interpolateSolid` is `InterpolateSolid` (effects.go); `solid` is the
`Solid` struct with its hold `duration` field (`none` = plain solid, no
timed completion); `pulse` is the `Pulse` effect between two colours. -/
inductive AnimEffect where
  | interpolateSolid (startColor endColor : RGBA) (duration : Time) (startOnCurrent : Bool)
  | solid (color : RGBA) (duration : Option Time)
  | pulse (c1 c2 : RGBA) (period : Time) (smooth : Bool)
deriving DecidableEq, Repr

/-- An effect value together with its `startTime` state (every effect's
`Start(t)` sets `start_time := t`, spec §4.2). -/
structure PortalEffect where
  kind : AnimEffect
  startTime : Time := 0
deriving DecidableEq, Repr

/-- `NewInterpolateToHexRGB` (effects.go): interpolate from the current
universe colour (`startOnCurrent = true`, arbitrary start colour `0x0`) to
the given 24-bit colour over `duration`. -/
def NewInterpolateToHexRGB (endColor : Nat) (duration : Time) : PortalEffect :=
  { kind := .interpolateSolid (RGBAFromRGBHex 0) (RGBAFromRGBHex endColor) duration true }

/-- `NewSolid` (effects.go): a static solid colour. -/
def NewSolid (color : RGBA) : PortalEffect :=
  { kind := .solid color none }

/-- Modelled from the spec: `NewTimedSolid` (TimedSolid constructor of the
portal animation package's effects file, which is not under `src/`): a solid
colour with a finite hold `duration`; spec §4.2 "Solid(c, duration)" with
`done = (now − start_time ≥ duration)`. -/
def NewTimedSolid (color : RGBA) (duration : Time) : PortalEffect :=
  { kind := .solid color (some duration) }

/-- Modelled from the spec: `NewPulse` (Pulse constructor of the portal
animation package's effects file, which is not under `src/`): a sinusoidal
pulse between two colours with the given period; never done (spec §4.2). -/
def NewPulse (c1 c2 : RGBA) (period : Time) (smooth : Bool) : PortalEffect :=
  { kind := .pulse c1 c2 period smooth }

/-- `animCircBuf` / `seqCircBuf` (model.go): a fixed 5-slot circular buffer
with `head == tail` meaning empty; slots hold `none` where Go holds `nil`. -/
structure circBuf (α : Type) where
  buf : List (Option α)
  head : Nat
  tail : Nat
deriving DecidableEq, Repr

/-- `newAnimCircBuf` / `newSeqCircBuf` (model.go): 5 empty slots. -/
def newCircBuf (α : Type) : circBuf α :=
  { buf := List.replicate 5 none, head := 0, tail := 0 }

/-- `enqueue` (model.go): write at `tail` and advance it; there is no
fullness check. -/
def circBuf.enqueue {α : Type} (cb : circBuf α) (x : α) : circBuf α :=
  { cb with buf := cb.buf.set cb.tail (some x), tail := (cb.tail + 1) % cb.buf.length }

/-- `dequeue` (model.go): `nil` when `head == tail`, else pop the head slot. -/
def circBuf.dequeue {α : Type} (cb : circBuf α) : Option α × circBuf α :=
  if cb.head = cb.tail then (none, cb)
  else (cb.buf.getD cb.head none,
        { cb with buf := cb.buf.set cb.head none, head := (cb.head + 1) % cb.buf.length })

/-- `peek` (model.go). -/
def circBuf.peek {α : Type} (cb : circBuf α) : Option α :=
  if cb.head = cb.tail then none else cb.buf.getD cb.head none

/-- `size` (model.go): `(tail + len - head) % len`. -/
def circBuf.size {α : Type} (cb : circBuf α) : Nat :=
  (cb.tail + cb.buf.length - cb.head) % cb.buf.length

/-- The body of `clear`'s loop (model.go), fuelled: for the in-range states
the Go loop produces, `head` reaches `tail` within `len(buf)` iterations, so
`len(buf)` units of fuel make this exact. -/
def clearLoop {α : Type} : circBuf α → Nat → circBuf α
  | cb, 0 => cb
  | cb, n + 1 =>
    if cb.head = cb.tail then cb
    else clearLoop { cb with buf := cb.buf.set cb.head none, head := (cb.head + 1) % cb.buf.length } n

/-- `clear` (model.go): pop slots until `head == tail`. -/
def circBuf.clear {α : Type} (cb : circBuf α) : circBuf α :=
  clearLoop cb cb.buf.length

/-- `Faction` (model.go). -/
inductive Faction where
  | NEU
  | ENL
  | RES
deriving DecidableEq, Repr

/-- `ResonatorStatus` (model.go); `Health` is a `float32` percentage,
embedded as a rational. -/
structure ResonatorStatus where
  Level : Int
  Health : ℚ
deriving DecidableEq, Repr

/-- `PortalStatus` (model.go); `Level` is a `float32`, embedded as a
rational. -/
structure PortalStatus where
  Faction : Faction
  Level : ℚ
  Resonators : List ResonatorStatus
deriving DecidableEq, Repr

/-- `windowSize` (part_004): pixels per window. -/
def windowSize : Nat := 30

/-- `numResos` (part_004). -/
def numResos : Nat := 8

/-- `numShaftWindows` (part_004). -/
def numShaftWindows : Nat := 16

/-- `Portal` (model.go): cached status, the shaft `SequenceRunner`, the
pending-sequence queue, and the eight per-resonator animation queues.  (The
frame output buffer `frameBuf` is touched only by the frame-generation code,
which no modelled function needs.) -/
structure Portal where
  currentStatus : PortalStatus
  sr : SequenceRunner PortalEffect (List RGBA)
  seqBuf : circBuf (Sequence PortalEffect)
  resonators : List (circBuf PortalEffect)
deriving DecidableEq, Repr

/-- `NewPortal` (part_004): 16 shaft universes of 30 pixels, empty queues,
neutral level-0 cached status. -/
def NewPortal : Portal :=
  { currentStatus := ⟨.NEU, 0, List.replicate numResos ⟨0, 0⟩⟩
    sr := NewSequenceRunner PortalEffect (List.replicate numShaftWindows windowSize)
            (fun size => List.replicate size RGBA.zero)
    seqBuf := newCircBuf _
    resonators := List.replicate numResos (newCircBuf _) }

/-- Truncation toward zero of a rational, mirroring Go's conversion of a
float to `time.Duration` (an `int64`). -/
def ratTrunc (q : ℚ) : Int := q.num.tdiv (q.den : Int)

/-- The `solid` hold time used by the owned-portal sequence:
`time.Duration(125.0 * Level) * time.Millisecond` (part_004 lines 209, 287). -/
def ownedHoldTime (level : ℚ) : Time := ratTrunc (125 * level) * millisecond

/-- Update one entry of an association list in place. -/
def modifyAssoc {κ α : Type} [DecidableEq κ] (l : List (κ × α)) (key : κ) (f : α → α) :
    List (κ × α) :=
  l.map (fun kv => if kv.1 = key then (kv.1, f kv.2) else kv)

/-- `createWindowFadeInOut` (part_004): add the `in` (250 ms fade to
`color`), `solid` (timed solid holding `holdTime`) and `out` (500 ms fade to
black) steps for universe `uniID` to the step map. -/
def createWindowFadeInOut (stepMap : List (String × Step PortalEffect)) (uniID : Nat)
    (color : Nat) (holdTime : Time) : List (String × Step PortalEffect) :=
  let idStr := toString uniID
  stepMap ++
    [("in" ++ idStr, { UniverseID := uniID, Effect := NewInterpolateToHexRGB color (250 * millisecond) }),
     ("solid" ++ idStr, { UniverseID := uniID, Effect := NewTimedSolid (RGBAFromRGBHex color) holdTime }),
     ("out" ++ idStr, { UniverseID := uniID, Effect := NewInterpolateToHexRGB 0 (500 * millisecond) })]

/-- `createFadePulseSeq` (part_004): per universe, an initial fade-to-black
(1 s) chained to an endless pulse between black and `c` with period
`pulseDuration`.  (Go appends the `fadeOut → pulse` link after inserting the
step into the sequence; the shared pointer makes it visible there, so the
embedded step carries the link directly.) -/
def createFadePulseSeq (c : RGBA) (pulseDuration : Time) : Sequence PortalEffect :=
  (List.range numShaftWindows).foldl
    (fun seq uniID =>
      let idStr := toString uniID
      let fadeOut : Step PortalEffect :=
        { UniverseID := uniID, Effect := NewInterpolateToHexRGB 0 second
          Next := [⟨"pulse" ++ idStr, 0⟩] }
      let seq := seq.AddInitialStep ("fadeOut" ++ idStr) fadeOut
      seq.AddStep ("pulse" ++ idStr)
        { UniverseID := uniID, Effect := NewPulse (RGBAFromRGBHex 0) c pulseDuration true })
    (NewSequence _)

/-- The per-frame generator of the portal's effects (floating-point colour
blending), abstracted: the sequence-structure claims hold for every `fr`. -/
abbrev PortalFrameFn := PortalEffect → List RGBA → Time → PortalEffect × List RGBA × Bool

/-- The portal animation package's `Animation` interface dictionary:
`Start(t)` sets `start_time := t` (spec §4.2); `Frame` is the abstracted
generator. -/
def portalOps (fr : PortalFrameFn) : AnimationOps PortalEffect (List RGBA) :=
  { start := fun e t => { e with startTime := t }, frame := fr }

/-- The faction colour switch of `createOwnedPortalSeq` (part_004 lines
198-206). -/
def factionColor (f : Faction) : Nat :=
  match f with
  | .NEU => 0xffffff
  | .ENL => 0x00ff00
  | .RES => 0x0000ff

/-- The step map of the owned-portal sequence (part_004 lines 207-224):
`createWindowFadeInOut` inserts, for each of the 16 windows, the `in`
(250 ms fade to `color`), `solid` (timed solid holding `holdTime`) and
`out` (500 ms fade to black) steps with empty `Next` lists; the linking
loop then mutates the mapped-to steps through their shared pointers,
appending `in i → solid i`, `solid i → out i` and `in i → in ((i+2) mod 16)`
in that order.  The embedded map lists each step with the `Next` list those
mutations leave it with. -/
def ownedStepMap (color : Nat) (holdTime : Time) : List (String × Step PortalEffect) :=
  (List.range numShaftWindows).flatMap (fun uniID =>
    let idStr := toString uniID
    [("in" ++ idStr,
      { UniverseID := uniID
        Effect := NewInterpolateToHexRGB color (250 * millisecond)
        Next := [⟨"solid" ++ idStr, 0⟩,
                 ⟨"in" ++ toString ((uniID + 2) % numShaftWindows), 0⟩] }),
     ("solid" ++ idStr,
      { UniverseID := uniID
        Effect := NewTimedSolid (RGBAFromRGBHex color) holdTime
        Next := [⟨"out" ++ idStr, 0⟩] }),
     ("out" ++ idStr,
      { UniverseID := uniID
        Effect := NewInterpolateToHexRGB 0 (500 * millisecond)
        Next := [] })])

/-- `createOwnedPortalSeq` (part_004): build the owned-portal wave sequence
with initial operations `in0`, `in1`, clear the pending-sequence queue and
enqueue the wave sequence, then immediately install the takeover-pulse
sequence (fade to black, then 1.5 s pulse between black and the faction
colour) on the sequence runner at wall-clock time `wall` (`time.Now()`). -/
def Portal.createOwnedPortalSeq (fr : PortalFrameFn) (p : Portal)
    (newStatus : PortalStatus) (wall : Time) : Portal :=
  let c := factionColor newStatus.Faction
  let seq : Sequence PortalEffect :=
    { steps := ownedStepMap c (ownedHoldTime newStatus.Level)
      initialOperations := [⟨"in0", 0⟩, ⟨"in1", 0⟩] }
  let takeOverPulse := createFadePulseSeq (RGBAFromRGBHex c) (1500 * millisecond)
  { p with
      seqBuf := (p.seqBuf.clear).enqueue seq
      sr := p.sr.InitSequence (portalOps fr) takeOverPulse wall wall }

/-- `createNeutralPortalSeq` (part_004): per universe, fade-to-black (1 s) →
red pulse-in (250 ms) → black pulse-out (1.5 s) → random 0–3 s delayed fade
to dim white (1 s) → solid dim white; clears the pending queue and installs
immediately.  `rand uniID` is the oracle for `rand.Intn(3000)`. -/
def Portal.createNeutralPortalSeq (fr : PortalFrameFn) (p : Portal)
    (wall : Time) (rand : Nat → Time) : Portal :=
  let seq := (List.range numShaftWindows).foldl
    (fun sq uniID =>
      let idStr := toString uniID
      let sq := sq.AddInitialStep ("fadeOut" ++ idStr)
        { UniverseID := uniID, Effect := NewInterpolateToHexRGB 0 second
          Next := [⟨"pulseIn" ++ idStr, 0⟩] }
      let sq := sq.AddStep ("pulseIn" ++ idStr)
        { UniverseID := uniID, Effect := NewInterpolateToHexRGB 0xff0000 (250 * millisecond)
          Next := [⟨"pulseOut" ++ idStr, 0⟩] }
      let sq := sq.AddStep ("pulseOut" ++ idStr)
        { UniverseID := uniID, Effect := NewInterpolateToHexRGB 0 (1500 * millisecond)
          Next := [⟨"fadeIn" ++ idStr, rand uniID * millisecond⟩] }
      let sq := sq.AddStep ("fadeIn" ++ idStr)
        { UniverseID := uniID, Effect := NewInterpolateToHexRGB 0xaaaaaa second
          Next := [⟨"solid" ++ idStr, 0⟩] }
      sq.AddStep ("solid" ++ idStr)
        { UniverseID := uniID, Effect := NewSolid (RGBAFromRGBHex 0xaaaaaa) })
    (NewSequence _)
  { p with
      seqBuf := p.seqBuf.clear
      sr := p.sr.InitSequence (portalOps fr) seq wall wall }

/-- `updateHoldTime` (part_004): rewrite the hold duration of every step
named `solid0` … `solid15` present in the sequence.  Go's type assertion
`step.Effect.(*Solid)` panics when such a step's effect is not a `Solid`;
the panic is the `none` result. -/
def updateHoldStep (holdTime : Time) (sq : Sequence PortalEffect) (uniID : Nat) :
    Option (Sequence PortalEffect) :=
  match lookupAssoc sq.steps ("solid" ++ toString uniID) with
  | none => some sq
  | some step =>
    match step.Effect.kind with
    | .solid c _ =>
      some (sq.setEffect ("solid" ++ toString uniID)
        { step.Effect with kind := .solid c (some holdTime) })
    | _ => none

/-- `updateHoldTime` (part_004), continued: the fold of `updateHoldStep`
over the 16 window indices. -/
def updateHoldTime (seq : Sequence PortalEffect) (holdTime : Time) :
    Option (Sequence PortalEffect) :=
  (List.range numShaftWindows).foldlM (updateHoldStep holdTime) seq

/-- `updatePortal` (part_004): on a faction change build the owned or
neutral sequence; otherwise, on a level change while the faction is owned,
rewrite the hold times of the current sequence's `solid` steps in place.
`none` is the Go panic of `updateHoldTime`'s type assertion. -/
def Portal.updatePortal (fr : PortalFrameFn) (p : Portal) (newStatus : PortalStatus)
    (wall : Time) (rand : Nat → Time) : Option Portal :=
  if p.currentStatus.Faction ≠ newStatus.Faction then
    if newStatus.Faction = .ENL ∨ newStatus.Faction = .RES then
      some (p.createOwnedPortalSeq fr newStatus wall)
    else
      some (p.createNeutralPortalSeq fr wall rand)
  else if p.currentStatus.Level ≠ newStatus.Level then
    if newStatus.Faction = .ENL ∨ newStatus.Faction = .RES then
      (updateHoldTime p.sr.currSeq (ownedHoldTime newStatus.Level)).map
        (fun sq => { p with sr := { p.sr with currSeq := sq } })
    else some p
  else some p

/-! ## Status fan-out bus (part_011, `startFanOut`, guard-inside variant)

One broadcast of one message: the goroutine walks the subscriber list; for
each subscriber it runs, inside a `recover` guard, a send with a 250 ms
timeout.  The runtime outcome of that guarded send is abstracted into an
oracle: the send either completes (`delivered`), times out (`timeout` — the
case arm that logs "subscription failed to send" and returns normally), or
panics (`panicked`).  The deferred `recover` keeps the subscriber in the
filtered list exactly when no panic occurred. -/

/-- The possible outcomes of one guarded timed send. -/
inductive SendOutcome where
  | delivered
  | timeout
  | panicked
deriving DecidableEq, Repr

/-- One broadcast step of `startFanOut` (part_011 lines 48-67): returns the
groomed subscriber list (Go's `newSubs`) and the list of subscribers that
received the message, both in subscription order. -/
def fanOutBroadcast {S : Type} (subsList : List S) (outcome : S → SendOutcome) :
    List S × List S :=
  subsList.foldl
    (fun acc ch =>
      match outcome ch with
      | .delivered => (acc.1 ++ [ch], acc.2 ++ [ch])
      | .timeout => (acc.1 ++ [ch], acc.2)
      | .panicked => (acc.1, acc.2))
    ([], [])

/-! ## Frame pump emit loop (part_012, `RunLoop` / `updateStrands`)

`updateStrands` walks the 24 channels' frame data, builds one OPC message
per channel and sends it; the per-channel result of `fc.Send` is the oracle
list `sendOutcomes` (in channel order, `none` = nil error).  The Go named
return `err` is reassigned by `err = fc.Send(m)` on every iteration, so the
value `updateStrands` returns is the result of the **last** channel's send.
`RunLoop` then picks the next tick interval from that value. -/

/-- `updateStrands` (part_012 lines 220-253), restricted to its returned
error: each iteration overwrites `err` with this channel's send result
(failures are also pushed to the error channel, which does not affect the
return value). -/
def updateStrands (sendOutcomes : List (Option String)) : Option String :=
  sendOutcomes.foldl (fun _ r => r) none

/-- The tick-interval selection of `RunLoop` (part_012 lines 184-189):
250 ms when `updateStrands` returned a non-nil error, else 30 ms. -/
def runLoopNextRefresh (sendOutcomes : List (Option String)) : Time :=
  if (updateStrands sendOutcomes).isSome then 250 * millisecond else 30 * millisecond

/-! ## Concrete effect dictionaries used to instantiate the runner -/

/-- A degenerate effect whose `Frame` reports completion immediately (the
limit case of `TimedSolid` with zero duration). -/
def alwaysDoneOps : AnimationOps Unit Unit :=
  { start := fun e _ => e, frame := fun e b _ => (e, b, true) }

/-- An effect whose state records its lifecycle: `Start` adds 100, each
`Frame` call adds 1 and never completes, so the state shows whether `Start`
and `Frame` have run. -/
def markerOps : AnimationOps Nat Unit :=
  { start := fun e _ => e + 100, frame := fun e b _ => (e + 1, b, false) }

/-! ## Theorems -/

/-- The two components of `fanOutBroadcast` are filters of the subscriber
list: a subscriber is kept unless its send panicked, and receives the
message exactly when its send completed. -/
theorem fanOutBroadcast_eq_filter {S : Type} [DecidableEq S] (subsList : List S)
    (outcome : S → SendOutcome) :
    fanOutBroadcast subsList outcome =
      (subsList.filter (fun ch => outcome ch ≠ SendOutcome.panicked),
       subsList.filter (fun ch => outcome ch = SendOutcome.delivered)) := by
  suffices h : ∀ acc : List S × List S,
      subsList.foldl
        (fun acc ch =>
          match outcome ch with
          | .delivered => (acc.1 ++ [ch], acc.2 ++ [ch])
          | .timeout => (acc.1 ++ [ch], acc.2)
          | .panicked => (acc.1, acc.2))
        acc =
      (acc.1 ++ subsList.filter (fun ch => outcome ch ≠ SendOutcome.panicked),
       acc.2 ++ subsList.filter (fun ch => outcome ch = SendOutcome.delivered)) by
    simpa [fanOutBroadcast] using h ([], [])
  induction subsList with
  | nil => intro acc; simp
  | cons ch rest ih =>
    intro acc
    rcases hc : outcome ch with _ | _ | _ <;>
      simp [List.filter_cons, hc, ih, List.append_assoc]

/-- C5, counterexample: one subscriber whose guarded send times out.  The
message is dropped for it (the delivered list is empty) yet the subscriber
stays on the subscription list, so "never dropping the message while keeping
the subscriber" fails. -/
theorem fanOut_timeout_keeps_subscriber :
    (fanOutBroadcast [7] (fun _ => SendOutcome.timeout)).2 = ([] : List Nat) ∧
    (fanOutBroadcast [7] (fun _ => SendOutcome.timeout)).1 = [7] := by
  decide

/-- C5 (amended): for every subscriber subscribed at publish time, the
message is delivered exactly when its guarded send completes within the
timeout; the subscriber is removed from the subscription list exactly when
the send panics; hence on a timeout the message is dropped for that
subscriber while the subscriber is kept. -/
theorem fanOutBroadcast_member {S : Type} [DecidableEq S] (subsList : List S)
    (outcome : S → SendOutcome) (ch : S) (h : ch ∈ subsList) :
    (ch ∈ (fanOutBroadcast subsList outcome).2 ↔ outcome ch = SendOutcome.delivered) ∧
    (ch ∈ (fanOutBroadcast subsList outcome).1 ↔ outcome ch ≠ SendOutcome.panicked) := by
  rw [fanOutBroadcast_eq_filter]
  constructor
  · simp [List.mem_filter, h]
  · simp [List.mem_filter, h]

/-- Witness for `fanOutBroadcast_member` at a concrete broadcast. -/
theorem fanOutBroadcast_member_witness :
    (2 ∈ [1, 2, 3] : Prop) ∧
    ((2 ∈ (fanOutBroadcast [1, 2, 3]
        (fun ch => if ch = 1 then SendOutcome.delivered
                   else if ch = 2 then SendOutcome.timeout else SendOutcome.panicked)).2 ↔
      (if 2 = 1 then SendOutcome.delivered
       else if 2 = 2 then SendOutcome.timeout else SendOutcome.panicked) = SendOutcome.delivered) ∧
     (2 ∈ (fanOutBroadcast [1, 2, 3]
        (fun ch => if ch = 1 then SendOutcome.delivered
                   else if ch = 2 then SendOutcome.timeout else SendOutcome.panicked)).1 ↔
      (if 2 = 1 then SendOutcome.delivered
       else if 2 = 2 then SendOutcome.timeout else SendOutcome.panicked) ≠ SendOutcome.panicked)) :=
  ⟨by decide,
   fanOutBroadcast_member [1, 2, 3]
     (fun ch => if ch = 1 then SendOutcome.delivered
                else if ch = 2 then SendOutcome.timeout else SendOutcome.panicked)
     2 (by decide)⟩

/-- `updateStrands` returns the last channel's send result (`none` for an
empty channel list). -/
theorem updateStrands_eq_getLast (sendOutcomes : List (Option String)) :
    updateStrands sendOutcomes = sendOutcomes.getLast?.getD none := by
  suffices h : ∀ init : Option String,
      sendOutcomes.foldl (fun _ r => r) init = sendOutcomes.getLast?.getD init by
    exact h none
  induction sendOutcomes with
  | nil => intro init; rfl
  | cons o rest ih =>
    intro init
    rw [List.foldl_cons, ih o]
    cases rest with
    | nil => rfl
    | cons x xs =>
      rw [List.getLast?_cons_cons,
        List.getLast?_eq_getLast_of_ne_nil (l := x :: xs) (by simp)]
      rfl

/-- C8, counterexample: a tick in which the first of the 24 per-channel
writes fails and the rest succeed.  The claim requires the next tick to be
widened to 250 ms, but `updateStrands` returns only the last channel's
result, so the interval is restored to 30 ms. -/
theorem runLoop_early_write_error_ignored :
    ((some "connection reset") ∈
        ((some "connection reset") :: List.replicate 23 (none : Option String))) ∧
    runLoopNextRefresh ((some "connection reset") :: List.replicate 23 none) =
      30 * millisecond ∧
    (30 * millisecond : Time) ≠ 250 * millisecond := by
  refine ⟨by decide, ?_, by decide⟩
  rw [runLoopNextRefresh, updateStrands_eq_getLast]
  decide

/-- C8 (amended): the next tick interval is widened to 250 ms exactly when
the write of the last channel fails, and is 30 ms otherwise; in particular a
tick in which every per-channel write succeeds restores the 30 ms cadence. -/
theorem runLoopNextRefresh_last (sendOutcomes : List (Option String)) :
    runLoopNextRefresh sendOutcomes =
      (if (sendOutcomes.getLast?.getD none).isSome then 250 * millisecond
       else 30 * millisecond) ∧
    ((∀ o ∈ sendOutcomes, o = none) → runLoopNextRefresh sendOutcomes = 30 * millisecond) := by
  have h1 : runLoopNextRefresh sendOutcomes =
      (if (sendOutcomes.getLast?.getD none).isSome then 250 * millisecond
       else 30 * millisecond) := by
    rw [runLoopNextRefresh, updateStrands_eq_getLast]
  refine ⟨h1, fun hall => ?_⟩
  rw [h1]
  have hnone : sendOutcomes.getLast?.getD none = none := by
    rcases sendOutcomes.eq_nil_or_concat with rfl | ⟨l, o, rfl⟩
    · rfl
    · have ho := hall o (by simp)
      simp [List.getLast?_concat, ho]
  simp [hnone]

/-- Witness for `runLoopNextRefresh_last` at a concrete all-success tick. -/
theorem runLoopNextRefresh_last_witness :
    (runLoopNextRefresh (List.replicate 24 none) =
      (if ((List.replicate 24 (none : Option String)).getLast?.getD none).isSome
       then 250 * millisecond else 30 * millisecond) ∧
     ((∀ o ∈ List.replicate 24 (none : Option String), o = none) →
       runLoopNextRefresh (List.replicate 24 none) = 30 * millisecond)) :=
  runLoopNextRefresh_last (List.replicate 24 none)

/-- C10: the 5-slot circular animation buffer distinguishes at most 4 queued
animations: starting from any empty state (`head = tail`), five consecutive
enqueues with no intervening dequeue return the state to `head = tail`, so
`size` is `0` and `peek` reads the queue as empty, silently discarding all
five animations. -/
theorem circBuf_five_enqueues_reads_empty {α : Type} (cb : circBuf α)
    (hlen : cb.buf.length = 5) (hlt : cb.tail < 5) (hempty : cb.head = cb.tail)
    (a b c d e : α) :
    let cb5 := ((((cb.enqueue a).enqueue b).enqueue c).enqueue d).enqueue e
    cb5.head = cb5.tail ∧ cb5.size = 0 ∧ cb5.peek = none := by
  intro cb5
  have htail : cb5.tail = cb.tail := by
    simp only [cb5, circBuf.enqueue, List.length_set, hlen]
    omega
  have hhead : cb5.head = cb.head := by
    simp [cb5, circBuf.enqueue]
  have hlen5 : cb5.buf.length = 5 := by
    simp only [cb5, circBuf.enqueue, List.length_set]
    exact hlen
  refine ⟨by rw [htail, hhead, hempty], ?_, ?_⟩
  · rw [circBuf.size, hlen5, htail, hhead, hempty]
    omega
  · rw [circBuf.peek]
    simp [htail, hhead, hempty]

/-- Witness for `circBuf_five_enqueues_reads_empty` on the fresh resonator
queue. -/
theorem circBuf_five_enqueues_reads_empty_witness :
    ((newCircBuf Nat).buf.length = 5 ∧ (newCircBuf Nat).tail < 5 ∧
      (newCircBuf Nat).head = (newCircBuf Nat).tail) ∧
    (let cb5 := (((((newCircBuf Nat).enqueue 1).enqueue 2).enqueue 3).enqueue 4).enqueue 5
     cb5.head = cb5.tail ∧ cb5.size = 0 ∧ cb5.peek = none) :=
  ⟨by decide,
   circBuf_five_enqueues_reads_empty (newCircBuf Nat) (by decide) (by decide) (by decide)
     1 2 3 4 5⟩

/-- C2: `AddUniverse`'s doc comment promises `false` when "a specified
physical pixel doesn't exist", but the code only checks the name: adding a
range whose pixel 5 lies outside the single strand of length 2 succeeds,
records the non-existent location, and a later `UpdateUniverse` of that
universe panics on the out-of-range index. -/
theorem addUniverse_no_bounds_check :
    ((NewMapping [[2]]).AddUniverse "u" [⟨0, 0, 5, 1⟩]).2 = true ∧
    ((NewMapping [[2]]).AddUniverse "u" [⟨0, 0, 5, 1⟩]).1.universes = [[⟨0, 0, 5⟩]] ∧
    readLoc (NewMapping [[2]]).physBuf ⟨0, 0, 5⟩ = none ∧
    (((NewMapping [[2]]).AddUniverse "u" [⟨0, 0, 5, 1⟩]).1.UpdateUniverse 0
        [RGBA.zero]) = none := by
  decide

/-! ### Pixel-scatter lemmas for `UpdateUniverse` -/

/-- Everything `setNth?` guarantees on success: the length is preserved,
other positions are untouched, and position `n` was rewritten through `f`. -/
theorem setNth?_spec {α : Type} (f : α → Option α) :
    ∀ (xs ys : List α) (n : Nat), setNth? f xs n = some ys →
      ys.length = xs.length ∧
      (∀ m, m ≠ n → ys[m]? = xs[m]?) ∧
      ∃ x y, xs[n]? = some x ∧ f x = some y ∧ ys[n]? = some y := by
  intro xs
  induction xs with
  | nil => intro ys n h; simp [setNth?] at h
  | cons x xs ih =>
    intro ys n h
    cases n with
    | zero =>
      simp only [setNth?, Option.map_eq_some'] at h
      obtain ⟨y, hy, rfl⟩ := h
      refine ⟨by simp, ?_, x, y, by simp, hy, by simp⟩
      intro m hm
      cases m with
      | zero => exact absurd rfl hm
      | succ m => simp
    | succ n =>
      simp only [setNth?, Option.map_eq_some'] at h
      obtain ⟨ys', hys', rfl⟩ := h
      obtain ⟨hlen, hother, x', y', hget, hfy, hget'⟩ := ih ys' n hys'
      refine ⟨by simp [hlen], ?_, x', y', by simpa using hget, hfy, by simpa using hget'⟩
      intro m hm
      cases m with
      | zero => simp
      | succ m => simpa using hother m (by omega)

/-- `setNth?` succeeds whenever the position exists and `f` succeeds on it. -/
theorem setNth?_isSome {α : Type} (f : α → Option α) :
    ∀ (xs : List α) (n : Nat) (x : α), xs[n]? = some x → (f x).isSome →
      (setNth? f xs n).isSome := by
  intro xs
  induction xs with
  | nil => intro n x h _; simp at h
  | cons a xs ih =>
    intro n x h hf
    cases n with
    | zero =>
      simp only [List.getElem?_cons_zero, Option.some_inj] at h
      subst h
      simpa [setNth?] using hf
    | succ n =>
      simp only [List.getElem?_cons_succ] at h
      simpa [setNth?] using ih n x h hf

/-- `writeLoc` succeeds on every location that exists in the buffer. -/
theorem writeLoc_isSome {buf : PhysBuf} {l : location} (v : RGBA)
    (h : readLoc buf l = some v) (c : RGBA) : (writeLoc buf l c).isSome := by
  rw [readLoc] at h
  rcases hb : buf[l.board]? with _ | board
  · rw [hb] at h; simp at h
  rw [hb, Option.some_bind] at h
  rcases hs : board[l.strand]? with _ | strand
  · rw [hs] at h; simp at h
  rw [hs, Option.some_bind] at h
  have h1 : (setNth? (fun _ => some c) strand l.pixel).isSome :=
    setNth?_isSome _ strand l.pixel v h (by simp)
  have h2 : (setNth? (fun st => setNth? (fun _ => some c) st l.pixel) board l.strand).isSome :=
    setNth?_isSome _ board l.strand strand hs h1
  rw [writeLoc]
  exact setNth?_isSome _ buf l.board board hb h2

/-- After a successful write, the written location reads back the written
colour. -/
theorem writeLoc_read_same {buf buf' : PhysBuf} {l : location} {c : RGBA}
    (h : writeLoc buf l c = some buf') : readLoc buf' l = some c := by
  rw [writeLoc] at h
  obtain ⟨-, -, board, boardNew, hb, hfb, hb'⟩ := setNth?_spec _ buf buf' l.board h
  obtain ⟨-, -, strand, strandNew, hs, hfs, hs'⟩ :=
    setNth?_spec _ board boardNew l.strand hfb
  obtain ⟨-, -, pix, pixNew, hp, hfp, hp'⟩ := setNth?_spec _ strand strandNew l.pixel hfs
  have hcp : pixNew = c := (Option.some.inj hfp).symm
  rw [readLoc, hb', Option.some_bind, hs', Option.some_bind, hp', hcp]

/-- After a successful write, every other location is untouched. -/
theorem writeLoc_read_other {buf buf' : PhysBuf} {l : location} {c : RGBA}
    (h : writeLoc buf l c = some buf') (l' : location) (hne : l' ≠ l) :
    readLoc buf' l' = readLoc buf l' := by
  rw [writeLoc] at h
  obtain ⟨-, hbOther, board, boardNew, hb, hfb, hb'⟩ := setNth?_spec _ buf buf' l.board h
  by_cases hboard : l'.board = l.board
  · obtain ⟨-, hsOther, strand, strandNew, hs, hfs, hs'⟩ :=
      setNth?_spec _ board boardNew l.strand hfb
    by_cases hstrand : l'.strand = l.strand
    · obtain ⟨-, hpOther, pix, pixNew, hp, hfp, hp'⟩ :=
        setNth?_spec _ strand strandNew l.pixel hfs
      have hpixel : l'.pixel ≠ l.pixel := by
        intro hpx
        exact hne (by cases l; cases l'; simp_all)
      rw [readLoc, readLoc, hboard, hstrand, hb', hb, Option.some_bind, Option.some_bind,
        hs', hs, Option.some_bind, Option.some_bind, hpOther l'.pixel hpixel]
    · rw [readLoc, readLoc, hboard, hb', hb, Option.some_bind, Option.some_bind,
        hsOther l'.strand hstrand]
  · rw [readLoc, readLoc, hbOther l'.board hboard]

/-- A successful write preserves which locations are readable. -/
theorem writeLoc_read_isSome {buf buf' : PhysBuf} {l : location} {c : RGBA}
    (h : writeLoc buf l c = some buf') (l' : location) :
    (readLoc buf' l').isSome ↔ (readLoc buf l').isSome := by
  by_cases hl : l' = l
  · subst hl
    rw [writeLoc_read_same h]
    rw [writeLoc] at h
    obtain ⟨-, -, board, boardNew, hb, hfb, -⟩ := setNth?_spec _ buf buf' l'.board h
    obtain ⟨-, -, strand, strandNew, hs, hfs, -⟩ :=
      setNth?_spec _ board boardNew l'.strand hfb
    obtain ⟨-, -, pix, -, hp, -, -⟩ := setNth?_spec _ strand strandNew l'.pixel hfs
    have : readLoc buf l' = some pix := by
      rw [readLoc, hb, Option.some_bind, hs, Option.some_bind, hp]
    simp [this]
  · rw [writeLoc_read_other h l' hl]

/-- The write loop of `UpdateUniverse` on a long-enough slice: no panic, no
error, every location of the suffix receives its datum (the locations being
pairwise distinct), and locations outside the suffix are untouched. -/
theorem updateLoop_ok (rgbData : List RGBA) :
    ∀ (u : List location) (buf : PhysBuf) (idx : Nat),
      (∀ l ∈ u, (readLoc buf l).isSome) →
      idx + u.length ≤ rgbData.length →
      u.Nodup →
      ∃ buf', updateLoop buf u rgbData idx = some (buf', false) ∧
        (∀ j (hj : j < u.length),
          readLoc buf' (u.get ⟨j, hj⟩) = some (rgbData.getD (idx + j) RGBA.zero)) ∧
        (∀ l, l ∉ u → readLoc buf' l = readLoc buf l) := by
  intro u
  induction u with
  | nil =>
    intro buf idx _ _ _
    refine ⟨buf, rfl, ?_, fun l _ => rfl⟩
    intro j hj
    simp at hj
  | cons l rest ih =>
    intro buf idx hvalid hlen hnodup
    have hidx : ¬ rgbData.length ≤ idx := by simp at hlen; omega
    obtain ⟨v, hv⟩ := Option.isSome_iff_exists.mp (hvalid l (by simp))
    obtain ⟨buf1, hbuf1⟩ :=
      Option.isSome_iff_exists.mp (writeLoc_isSome v hv (rgbData.getD idx RGBA.zero))
    have hvalid1 : ∀ l' ∈ rest, (readLoc buf1 l').isSome := fun l' hl' =>
      (writeLoc_read_isSome hbuf1 l').mpr (hvalid l' (by simp [hl']))
    obtain ⟨buf', hloop, hreads, huntouched⟩ :=
      ih buf1 (idx + 1) hvalid1 (by simp at hlen ⊢; omega) hnodup.of_cons
    have hlnotin : l ∉ rest := (List.nodup_cons.mp hnodup).1
    refine ⟨buf', ?_, ?_, ?_⟩
    · simp only [updateLoop, if_neg hidx, hbuf1]
      exact hloop
    · intro j hj
      cases j with
      | zero =>
        show readLoc buf' l = _
        rw [huntouched l hlnotin, writeLoc_read_same hbuf1]
        simp
      | succ j =>
        have hj' : j < rest.length := by simpa using hj
        have hr := hreads j hj'
        have heq : idx + 1 + j = idx + (j + 1) := by omega
        rw [heq] at hr
        exact hr
    · intro l' hl'
      have h1 : l' ∉ rest := fun hm => hl' (by simp [hm])
      have h2 : l' ≠ l := fun he => hl' (by simp [he])
      rw [huntouched l' h1, writeLoc_read_other hbuf1 l' h2]

/-- The write loop of `UpdateUniverse` on a short slice: the length error is
returned, and every location whose index is below the slice length has
already been overwritten; locations outside the universe are untouched. -/
theorem updateLoop_short (rgbData : List RGBA) :
    ∀ (u : List location) (buf : PhysBuf) (idx : Nat),
      (∀ l ∈ u, (readLoc buf l).isSome) →
      rgbData.length < idx + u.length →
      idx ≤ rgbData.length →
      u.Nodup →
      ∃ buf', updateLoop buf u rgbData idx = some (buf', true) ∧
        (∀ j (hj : j < u.length), idx + j < rgbData.length →
          readLoc buf' (u.get ⟨j, hj⟩) = some (rgbData.getD (idx + j) RGBA.zero)) ∧
        (∀ l, l ∉ u → readLoc buf' l = readLoc buf l) := by
  intro u
  induction u with
  | nil =>
    intro buf idx _ hshort hle _
    simp at hshort
    omega
  | cons l rest ih =>
    intro buf idx hvalid hshort hle hnodup
    by_cases hidx : rgbData.length ≤ idx
    · refine ⟨buf, by simp only [updateLoop, if_pos hidx], ?_, fun l' _ => rfl⟩
      intro j hj hlt
      omega
    · obtain ⟨v, hv⟩ := Option.isSome_iff_exists.mp (hvalid l (by simp))
      obtain ⟨buf1, hbuf1⟩ :=
        Option.isSome_iff_exists.mp (writeLoc_isSome v hv (rgbData.getD idx RGBA.zero))
      have hvalid1 : ∀ l' ∈ rest, (readLoc buf1 l').isSome := fun l' hl' =>
        (writeLoc_read_isSome hbuf1 l').mpr (hvalid l' (by simp [hl']))
      obtain ⟨buf', hloop, hreads, huntouched⟩ :=
        ih buf1 (idx + 1) hvalid1 (by simp at hshort ⊢; omega) (by omega) hnodup.of_cons
      have hlnotin : l ∉ rest := (List.nodup_cons.mp hnodup).1
      refine ⟨buf', ?_, ?_, ?_⟩
      · simp only [updateLoop, if_neg hidx, hbuf1]
        exact hloop
      · intro j hj hlt
        cases j with
        | zero =>
          show readLoc buf' l = _
          rw [huntouched l hlnotin, writeLoc_read_same hbuf1]
          simp
        | succ j =>
          have hj' : j < rest.length := by simpa using hj
          have hr := hreads j hj' (by omega)
          have heq : idx + 1 + j = idx + (j + 1) := by omega
          rw [heq] at hr
          exact hr
      · intro l' hl'
        have h1 : l' ∉ rest := fun hm => hl' (by simp [hm])
        have h2 : l' ≠ l := fun he => hl' (by simp [he])
        rw [huntouched l' h1, writeLoc_read_other hbuf1 l' h2]


/-- C1, counterexample: `AddUniverse` accepts overlapping ranges, so a
universe can list the same physical location twice.  For the universe
`[(0,0,0), (0,0,0)]` and the slice `[red, blue]` the call returns no error,
but afterwards the buffer at `locations[0]` holds `blue = data[1]`, not
`data[0] = red`: the claimed per-index equality fails. -/
theorem updateUniverse_duplicate_location_cex :
    (((NewMapping [[1]]).AddUniverse "u" [⟨0, 0, 0, 1⟩, ⟨0, 0, 0, 1⟩]).1.universes =
        [[⟨0, 0, 0⟩, ⟨0, 0, 0⟩]]) ∧
    ((((NewMapping [[1]]).AddUniverse "u" [⟨0, 0, 0, 1⟩, ⟨0, 0, 0, 1⟩]).1.UpdateUniverse 0
        [⟨255, 0, 0, 255⟩, ⟨0, 0, 255, 255⟩]).map
        (fun p => (p.2, readLoc p.1.physBuf ⟨0, 0, 0⟩)) =
      some (false, some ⟨0, 0, 255, 255⟩)) ∧
    (⟨0, 0, 255, 255⟩ : RGBA) ≠ ⟨255, 0, 0, 255⟩ := by
  decide

/-- C1 (amended): for a universe whose locations are pairwise distinct and
lie inside the physical buffer, `UpdateUniverse` on a slice at least as long
as the universe returns no error and afterwards the buffer at
`u.locations[i]` equals `data[i]` for every `i < u.size`, with excess
entries ignored; on a shorter slice it returns the length error.  (With a
repeated location the buffer holds the datum of the last index mapping to
it, and a location outside the buffer makes the Go code panic instead.) -/
theorem UpdateUniverse_spec (m : Mapping) (id : Nat) (u : List location)
    (rgbData : List RGBA) (hu : m.universes[id]? = some u)
    (hvalid : ∀ l ∈ u, (readLoc m.physBuf l).isSome) (hnodup : u.Nodup) :
    (u.length ≤ rgbData.length →
      ∃ m2, m.UpdateUniverse id rgbData = some (m2, false) ∧
        ∀ j (hj : j < u.length),
          readLoc m2.physBuf (u.get ⟨j, hj⟩) = some (rgbData.getD j RGBA.zero)) ∧
    (rgbData.length < u.length →
      ∃ m2, m.UpdateUniverse id rgbData = some (m2, true)) := by
  constructor
  · intro hlen
    obtain ⟨buf2, hloop, hreads, -⟩ :=
      updateLoop_ok rgbData u m.physBuf 0 hvalid (by omega) hnodup
    refine ⟨{ m with physBuf := buf2 }, ?_, ?_⟩
    · simp only [Mapping.UpdateUniverse, hu, hloop, Option.map_some']
    · intro j hj
      simpa using hreads j hj
  · intro hshort
    obtain ⟨buf2, hloop, -, -⟩ :=
      updateLoop_short rgbData u m.physBuf 0 hvalid (by omega) (by omega) hnodup
    refine ⟨{ m with physBuf := buf2 }, ?_⟩
    simp only [Mapping.UpdateUniverse, hu, hloop, Option.map_some']

/-- Witness for `UpdateUniverse_spec` on a 2-pixel universe. -/
theorem UpdateUniverse_spec_witness :
    ((((NewMapping [[2]]).AddUniverse "u" [⟨0, 0, 0, 2⟩]).1.universes[0]? =
        some [⟨0, 0, 0⟩, ⟨0, 0, 1⟩]) ∧
     (∀ l ∈ [(⟨0, 0, 0⟩ : location), ⟨0, 0, 1⟩],
        (readLoc ((NewMapping [[2]]).AddUniverse "u" [⟨0, 0, 0, 2⟩]).1.physBuf l).isSome) ∧
     ([(⟨0, 0, 0⟩ : location), ⟨0, 0, 1⟩].Nodup)) ∧
    (([(⟨0, 0, 0⟩ : location), ⟨0, 0, 1⟩].length ≤
        [(⟨10, 20, 30, 255⟩ : RGBA), ⟨40, 50, 60, 255⟩].length →
      ∃ m2, ((NewMapping [[2]]).AddUniverse "u" [⟨0, 0, 0, 2⟩]).1.UpdateUniverse 0
          [⟨10, 20, 30, 255⟩, ⟨40, 50, 60, 255⟩] = some (m2, false) ∧
        ∀ j (hj : j < [(⟨0, 0, 0⟩ : location), ⟨0, 0, 1⟩].length),
          readLoc m2.physBuf ([(⟨0, 0, 0⟩ : location), ⟨0, 0, 1⟩].get ⟨j, hj⟩) =
            some ([(⟨10, 20, 30, 255⟩ : RGBA), ⟨40, 50, 60, 255⟩].getD j RGBA.zero)) ∧
     ([(⟨10, 20, 30, 255⟩ : RGBA), ⟨40, 50, 60, 255⟩].length <
        [(⟨0, 0, 0⟩ : location), ⟨0, 0, 1⟩].length →
      ∃ m2, ((NewMapping [[2]]).AddUniverse "u" [⟨0, 0, 0, 2⟩]).1.UpdateUniverse 0
          [⟨10, 20, 30, 255⟩, ⟨40, 50, 60, 255⟩] = some (m2, true))) :=
  ⟨⟨by decide, by decide, by decide⟩,
   UpdateUniverse_spec ((NewMapping [[2]]).AddUniverse "u" [⟨0, 0, 0, 2⟩]).1 0
     [⟨0, 0, 0⟩, ⟨0, 0, 1⟩] [⟨10, 20, 30, 255⟩, ⟨40, 50, 60, 255⟩]
     (by decide) (by decide) (by decide)⟩

/-- C9, counterexample: with a repeated location inside the first
`len(data)` entries, the pixels are not left equal to `data[i]`: for the
universe `[(0,0,0), (0,0,0), (0,0,1)]` and the short slice `[red, blue]`,
the call returns the length error but `locations[0]` holds `blue`, not
`data[0] = red`. -/
theorem updateUniverse_partial_duplicate_cex :
    (((NewMapping [[2]]).AddUniverse "u"
        [⟨0, 0, 0, 1⟩, ⟨0, 0, 0, 1⟩, ⟨0, 0, 1, 1⟩]).1.universes =
      [[⟨0, 0, 0⟩, ⟨0, 0, 0⟩, ⟨0, 0, 1⟩]]) ∧
    ((((NewMapping [[2]]).AddUniverse "u"
        [⟨0, 0, 0, 1⟩, ⟨0, 0, 0, 1⟩, ⟨0, 0, 1, 1⟩]).1.UpdateUniverse 0
        [⟨255, 0, 0, 255⟩, ⟨0, 0, 255, 255⟩]).map
        (fun p => (p.2, readLoc p.1.physBuf ⟨0, 0, 0⟩)) =
      some (true, some ⟨0, 0, 255, 255⟩)) ∧
    (⟨0, 0, 255, 255⟩ : RGBA) ≠ ⟨255, 0, 0, 255⟩ := by
  decide

/-- C9 (amended): `UpdateUniverse` is not atomic on error: for a universe
with pairwise-distinct in-buffer locations and a slice shorter than the
universe, the call returns the length error, and the physical pixels at
`u.locations[0]` through `u.locations[len(data)-1]` have already been
overwritten with the corresponding data before the error is returned.
(With a repeated location the last write wins instead.) -/
theorem UpdateUniverse_not_atomic_on_error (m : Mapping) (id : Nat) (u : List location)
    (rgbData : List RGBA) (hu : m.universes[id]? = some u)
    (hvalid : ∀ l ∈ u, (readLoc m.physBuf l).isSome) (hnodup : u.Nodup)
    (hshort : rgbData.length < u.length) :
    ∃ m2, m.UpdateUniverse id rgbData = some (m2, true) ∧
      ∀ j (hj : j < u.length), j < rgbData.length →
        readLoc m2.physBuf (u.get ⟨j, hj⟩) = some (rgbData.getD j RGBA.zero) := by
  obtain ⟨buf2, hloop, hreads, -⟩ :=
    updateLoop_short rgbData u m.physBuf 0 hvalid (by omega) (by omega) hnodup
  refine ⟨{ m with physBuf := buf2 }, ?_, ?_⟩
  · simp only [Mapping.UpdateUniverse, hu, hloop, Option.map_some']
  · intro j hj hlt
    simpa using hreads j hj (by omega)

/-- Witness for `UpdateUniverse_not_atomic_on_error`: a 2-pixel universe
updated with a single-entry slice keeps the first write. -/
theorem UpdateUniverse_not_atomic_on_error_witness :
    ((((NewMapping [[2]]).AddUniverse "w" [⟨0, 0, 0, 2⟩]).1.universes[0]? =
        some [⟨0, 0, 0⟩, ⟨0, 0, 1⟩]) ∧
     (∀ l ∈ [(⟨0, 0, 0⟩ : location), ⟨0, 0, 1⟩],
        (readLoc ((NewMapping [[2]]).AddUniverse "w" [⟨0, 0, 0, 2⟩]).1.physBuf l).isSome) ∧
     ([(⟨0, 0, 0⟩ : location), ⟨0, 0, 1⟩].Nodup) ∧
     ([(⟨9, 9, 9, 255⟩ : RGBA)].length < [(⟨0, 0, 0⟩ : location), ⟨0, 0, 1⟩].length)) ∧
    (∃ m2, ((NewMapping [[2]]).AddUniverse "w" [⟨0, 0, 0, 2⟩]).1.UpdateUniverse 0
        [⟨9, 9, 9, 255⟩] = some (m2, true) ∧
      ∀ j (hj : j < [(⟨0, 0, 0⟩ : location), ⟨0, 0, 1⟩].length),
        j < [(⟨9, 9, 9, 255⟩ : RGBA)].length →
        readLoc m2.physBuf ([(⟨0, 0, 0⟩ : location), ⟨0, 0, 1⟩].get ⟨j, hj⟩) =
          some ([(⟨9, 9, 9, 255⟩ : RGBA)].getD j RGBA.zero)) :=
  ⟨⟨by decide, by decide, by decide, by decide⟩,
   UpdateUniverse_not_atomic_on_error
     ((NewMapping [[2]]).AddUniverse "w" [⟨0, 0, 0, 2⟩]).1 0
     [⟨0, 0, 0⟩, ⟨0, 0, 1⟩] [⟨9, 9, 9, 255⟩]
     (by decide) (by decide) (by decide) (by decide)⟩


/-! ### Sequencer lemmas for `ProcessFrame` -/

/-- A key outside an association list looks up to nothing. -/
theorem lookupAssoc_eq_none_of_not_mem {κ α : Type} [DecidableEq κ]
    (l : List (κ × α)) (key : κ) (h : key ∉ l.map Prod.fst) :
    lookupAssoc l key = none := by
  induction l with
  | nil => rfl
  | cons kv rest ih =>
    have hk : kv.1 ≠ key := by
      intro he
      exact h (by simp [he])
    simp only [lookupAssoc, if_neg hk]
    exact ih (fun hm => h (by simp at hm ⊢; exact Or.inr hm))

/-- Looking up through a same-key in-place modification of an association
list applies the modification to the lookup result. -/
theorem lookupAssoc_map_if {κ α : Type} [DecidableEq κ] (l : List (κ × α)) (key : κ)
    (f : α → α) :
    lookupAssoc (l.map (fun kv => if kv.1 = key then (kv.1, f kv.2) else kv)) key =
      (lookupAssoc l key).map f := by
  induction l with
  | nil => rfl
  | cons kv rest ih =>
    by_cases hk : kv.1 = key
    · rw [List.map_cons, if_pos hk]
      simp only [lookupAssoc, if_pos hk]
      rfl
    · rw [List.map_cons, if_neg hk]
      simp only [lookupAssoc, if_neg hk]
      exact ih

/-- Once the universe loop has cleared `done`, it stays cleared. -/
theorem processFrameLoop_false {E B : Type} [Inhabited B] (ops : AnimationOps E B)
    (now wall : Time) :
    ∀ (keys : List Nat) (sr : SequenceRunner E B),
      (processFrameLoop ops keys sr false now wall).2 = false := by
  intro keys
  induction keys with
  | nil => intro sr; rfl
  | cons uid rest ih =>
    intro sr
    rcases hq : sr.queueOf uid with _ | ⟨name, tl⟩
    · simpa only [processFrameLoop, hq] using ih sr
    · simpa only [processFrameLoop, hq] using ih (sr.frameHead ops uid name now wall)

/-- When every visited universe queue is empty, the universe loop does
nothing. -/
theorem processFrameLoop_all_empty {E B : Type} [Inhabited B] (ops : AnimationOps E B)
    (now wall : Time) :
    ∀ (keys : List Nat) (sr : SequenceRunner E B) (done : Bool),
      (∀ uid ∈ keys, sr.queueOf uid = []) →
      processFrameLoop ops keys sr done now wall = (sr, done) := by
  intro keys
  induction keys with
  | nil => intro sr done _; rfl
  | cons uid rest ih =>
    intro sr done h
    have hq : sr.queueOf uid = [] := h uid (by simp)
    simp only [processFrameLoop, hq]
    exact ih sr done (fun u hu => h u (by simp [hu]))

/-- If the universe loop reports `done`, every visited queue was empty. -/
theorem processFrameLoop_true_implies {E B : Type} [Inhabited B] (ops : AnimationOps E B)
    (now wall : Time) :
    ∀ (keys : List Nat) (sr : SequenceRunner E B),
      (processFrameLoop ops keys sr true now wall).2 = true →
      ∀ uid ∈ keys, sr.queueOf uid = [] := by
  intro keys
  induction keys with
  | nil => intro sr _ uid hu; simp at hu
  | cons uid0 rest ih =>
    intro sr h uid hu
    rcases hq : sr.queueOf uid0 with _ | ⟨name, tl⟩
    · simp only [processFrameLoop, hq] at h
      rcases List.mem_cons.mp hu with rfl | hmem
      · exact hq
      · exact ih sr h uid hmem
    · simp only [processFrameLoop, hq] at h
      rw [processFrameLoop_false] at h
      exact absurd h (by simp)

/-- C3 (amended): the flag returned by `ProcessFrame(now)` is true iff, at
the start of frame generation — that is, after the scheduled-step promotion
of this call — every per-universe queue is empty and no scheduled item
remains; when the flag is true the post-state also has every queue empty and
no scheduled items, but the converse direction of the original claim fails:
a step that completes during this call can leave the post-state completely
empty while the flag is still false (see the counterexample). -/
theorem ProcessFrame_done_iff {E B : Type} [Inhabited B] (ops : AnimationOps E B)
    (sr : SequenceRunner E B) (now wall : Time) :
    ((sr.ProcessFrame ops now wall).2 = true ↔
      ((∀ uid, (sr.checkScheduledTasks ops now wall).queueOf uid = []) ∧
       (sr.checkScheduledTasks ops now wall).awaitingTime = [])) ∧
    ((sr.ProcessFrame ops now wall).2 = true →
      ((∀ uid, (sr.ProcessFrame ops now wall).1.queueOf uid = []) ∧
       (sr.ProcessFrame ops now wall).1.awaitingTime = [])) := by
  have hPF : sr.ProcessFrame ops now wall =
      (let sr1 := sr.checkScheduledTasks ops now wall
       let res := processFrameLoop ops (sr1.activeByUniverse.map Prod.fst) sr1 true now wall
       (res.1, res.2 && res.1.awaitingTime.isEmpty)) := rfl
  set sr1 := sr.checkScheduledTasks ops now wall with hsr1
  set keys := sr1.activeByUniverse.map Prod.fst with hkeys
  have main : (sr.ProcessFrame ops now wall).2 = true →
      processFrameLoop ops keys sr1 true now wall = (sr1, true) ∧
      (∀ uid, sr1.queueOf uid = []) ∧ sr1.awaitingTime = [] := by
    intro h
    rw [hPF] at h
    simp only at h
    have hsplit := Bool.and_eq_true_iff.mp h
    have hempties : ∀ uid ∈ keys, sr1.queueOf uid = [] :=
      processFrameLoop_true_implies ops now wall keys sr1 hsplit.1
    have hall : ∀ uid, sr1.queueOf uid = [] := by
      intro uid
      by_cases hm : uid ∈ keys
      · exact hempties uid hm
      · unfold SequenceRunner.queueOf
        rw [lookupAssoc_eq_none_of_not_mem sr1.activeByUniverse uid hm]
        rfl
    have hres : processFrameLoop ops keys sr1 true now wall = (sr1, true) :=
      processFrameLoop_all_empty ops now wall keys sr1 true hempties
    refine ⟨hres, hall, ?_⟩
    have := hsplit.2
    rw [hres] at this
    exact List.isEmpty_iff.mp this
  constructor
  · constructor
    · intro h
      obtain ⟨-, hall, ha⟩ := main h
      exact ⟨hall, ha⟩
    · rintro ⟨hq, ha⟩
      have hres : processFrameLoop ops keys sr1 true now wall = (sr1, true) :=
        processFrameLoop_all_empty ops now wall keys sr1 true (fun u _ => hq u)
      rw [hPF]
      simp only [hres, ha]
      rfl
  · intro h
    obtain ⟨hres, hall, ha⟩ := main h
    rw [hPF]
    simp only [hres]
    exact ⟨hall, ha⟩

/-- Witness for `ProcessFrame_done_iff` at a concrete runner state. -/
theorem ProcessFrame_done_iff_witness :
    let sr : SequenceRunner Unit Unit :=
      { awaitingTime := []
        activeByUniverse := [(0, [])]
        buffers := [()]
        currSeq := { steps := [], initialOperations := [] } }
    ((sr.ProcessFrame alwaysDoneOps 0 0).2 = true ↔
      ((∀ uid, (sr.checkScheduledTasks alwaysDoneOps 0 0).queueOf uid = []) ∧
       (sr.checkScheduledTasks alwaysDoneOps 0 0).awaitingTime = [])) ∧
    ((sr.ProcessFrame alwaysDoneOps 0 0).2 = true →
      ((∀ uid, (sr.ProcessFrame alwaysDoneOps 0 0).1.queueOf uid = []) ∧
       (sr.ProcessFrame alwaysDoneOps 0 0).1.awaitingTime = [])) :=
  ProcessFrame_done_iff alwaysDoneOps
    { awaitingTime := []
      activeByUniverse := [(0, [])]
      buffers := [()]
      currSeq := { steps := [], initialOperations := [] } } 0 0

/-- C3, counterexample: a runner whose single queued step completes during
this `ProcessFrame` call.  On return every per-universe queue is empty and
no scheduled item remains, yet the returned flag is `false`, because the
flag was cleared when the non-empty queue was observed before the step
completed.  The claimed "if and only if" therefore fails right-to-left. -/
theorem ProcessFrame_done_lags_completion_cex :
    let sr : SequenceRunner Unit Unit :=
      { awaitingTime := []
        activeByUniverse := [(0, ["a"])]
        buffers := [()]
        currSeq := { steps := [("a", { UniverseID := 0, Effect := (), Next := [] })]
                     initialOperations := [] } }
    let res := sr.ProcessFrame alwaysDoneOps 0 0
    res.2 = false ∧ res.1.activeByUniverse = [(0, [])] ∧ res.1.awaitingTime = [] := by
  decide


/-- Looking a step up after `setEffect`: the named step carries the new
effect state; other steps are unchanged. -/
theorem lookupAssoc_setEffect {E : Type} (seq : Sequence E) (nm : String) (e : E)
    (key : String) :
    lookupAssoc (seq.setEffect nm e).steps key =
      (if key = nm then (lookupAssoc seq.steps key).map (fun s => { s with Effect := e })
       else lookupAssoc seq.steps key) := by
  obtain ⟨steps, iops⟩ := seq
  simp only [Sequence.setEffect]
  induction steps with
  | nil => simp [lookupAssoc]
  | cons kv rest ih =>
    rw [List.map_cons]
    by_cases hk : kv.1 = nm
    · rw [if_pos hk]
      by_cases hq : kv.1 = key
      · have hkey : key = nm := hq ▸ hk
        simp only [lookupAssoc, if_pos hq, if_pos hkey, Option.map_some']
      · have hkey : ¬ key = nm := fun h => hq (hk.trans h.symm)
        simp only [lookupAssoc, if_neg hq, if_neg hkey]
        rw [ih, if_neg hkey]
    · rw [if_neg hk]
      by_cases hq : kv.1 = key
      · have hkey : ¬ key = nm := fun h => hk (hq.trans h)
        simp only [lookupAssoc, if_pos hq, if_neg hkey]
      · simp only [lookupAssoc, if_neg hq]
        exact ih

/-- C4 (amended): `checkScheduledTasks` uses the strict `now.After(runAt)`,
so within a single `ProcessFrame(now)` call exactly the steps scheduled
strictly before `now` are promoted to their universe queues before frame
generation; a promoted step that becomes its queue's head has its effect
`Start`ed and its `Frame` called during that same call.  A step whose
scheduled time equals `now` is NOT promoted this call: it stays in the
scheduled queue and its effect is untouched. -/
theorem ProcessFrame_strict_promotion {E B : Type} [Inhabited B]
    (ops : AnimationOps E B) (sr : SequenceRunner E B) (now wall t0 : Time)
    (name : String) (step : Step E)
    (hA : sr.awaitingTime = [(t0, name)])
    (hB : sr.activeByUniverse = [(step.UniverseID, [])])
    (hC : lookupAssoc sr.currSeq.steps name = some step)
    (hE : step.Next = []) :
    (t0 < now →
      (sr.ProcessFrame ops now wall).1.awaitingTime = [] ∧
      lookupAssoc (sr.ProcessFrame ops now wall).1.currSeq.steps name =
        some { step with
                 Effect := (ops.frame (ops.start step.Effect wall)
                   (sr.buffers.getD step.UniverseID default) now).1 } ∧
      (sr.ProcessFrame ops now wall).1.queueOf step.UniverseID =
        (if (ops.frame (ops.start step.Effect wall)
               (sr.buffers.getD step.UniverseID default) now).2.2
         then [] else [name])) ∧
    (¬ t0 < now →
      (sr.ProcessFrame ops now wall).1.awaitingTime = [(t0, name)] ∧
      (sr.ProcessFrame ops now wall).1.currSeq = sr.currSeq ∧
      (sr.ProcessFrame ops now wall).1.queueOf step.UniverseID = []) := by
  obtain ⟨awaiting, active, bufs, currSeq⟩ := sr
  replace hA : awaiting = [(t0, name)] := hA
  replace hB : active = [(step.UniverseID, [])] := hB
  replace hC : lookupAssoc currSeq.steps name = some step := hC
  subst hA
  subst hB
  constructor
  · intro ht
    by_cases hdone : (ops.frame (ops.start step.Effect wall)
        (bufs.getD step.UniverseID default) now).2.2
    all_goals rw [List.getD_eq_getElem?_getD] at hdone
    · simp [SequenceRunner.ProcessFrame, SequenceRunner.checkScheduledTasks,
        SequenceRunner.startStep, SequenceRunner.frameHead,
        SequenceRunner.handleStepComplete, SequenceRunner.queueOf,
        processFrameLoop, lookupAssoc, updateAssoc,
        lookupAssoc_setEffect, hC, hE, ht, hdone]
    · simp [SequenceRunner.ProcessFrame, SequenceRunner.checkScheduledTasks,
        SequenceRunner.startStep, SequenceRunner.frameHead,
        SequenceRunner.handleStepComplete, SequenceRunner.queueOf,
        processFrameLoop, lookupAssoc, updateAssoc,
        lookupAssoc_setEffect, hC, hE, ht, hdone]
  · intro ht
    simp [SequenceRunner.ProcessFrame, SequenceRunner.checkScheduledTasks,
      SequenceRunner.queueOf, processFrameLoop, lookupAssoc, ht]
    exact Int.not_lt.mp ht


/-- Witness for `ProcessFrame_strict_promotion`: a step scheduled at time 4
is promoted and framed by `ProcessFrame(5)`. -/
theorem ProcessFrame_strict_promotion_witness :
    let step : Step Nat := { UniverseID := 0, Effect := 0, Next := [] }
    let sr : SequenceRunner Nat Unit :=
      { awaitingTime := [(4, "a")], activeByUniverse := [(0, [])], buffers := [()]
        currSeq := { steps := [("a", step)], initialOperations := [] } }
    (sr.awaitingTime = [((4 : Time), "a")] ∧
     sr.activeByUniverse = [(step.UniverseID, [])] ∧
     lookupAssoc sr.currSeq.steps "a" = some step ∧ step.Next = []) ∧
    (((4 : Time) < 5 →
      (sr.ProcessFrame markerOps 5 0).1.awaitingTime = [] ∧
      lookupAssoc (sr.ProcessFrame markerOps 5 0).1.currSeq.steps "a" =
        some { step with
                 Effect := (markerOps.frame (markerOps.start step.Effect 0)
                   (sr.buffers.getD step.UniverseID default) 5).1 } ∧
      (sr.ProcessFrame markerOps 5 0).1.queueOf step.UniverseID =
        (if (markerOps.frame (markerOps.start step.Effect 0)
               (sr.buffers.getD step.UniverseID default) 5).2.2
         then [] else ["a"])) ∧
     (¬ (4 : Time) < 5 →
      (sr.ProcessFrame markerOps 5 0).1.awaitingTime = [((4 : Time), "a")] ∧
      (sr.ProcessFrame markerOps 5 0).1.currSeq = sr.currSeq ∧
      (sr.ProcessFrame markerOps 5 0).1.queueOf step.UniverseID = [])) :=
  ⟨by decide,
   ProcessFrame_strict_promotion markerOps
     { awaitingTime := [(4, "a")], activeByUniverse := [(0, [])], buffers := [()]
       currSeq := { steps := [("a", { UniverseID := 0, Effect := 0, Next := [] })]
                    initialOperations := [] } }
     5 0 4 "a" { UniverseID := 0, Effect := 0, Next := [] }
     (by decide) (by decide) (by decide) (by decide)⟩

/-- C4, counterexample: a step scheduled exactly at the current tick.
`checkScheduledTasks` promotes only items with `now.After(runAt)`, i.e.
`runAt` strictly before `now`, so the step stays in the scheduled queue, is
not placed on its universe queue, and its effect's `Start`/`Frame` are not
called this tick (the marker effect state is still `0`; a promoted-and-
framed step would carry `101`). -/
theorem ProcessFrame_equal_time_not_promoted_cex :
    let sr : SequenceRunner Nat Unit :=
      { awaitingTime := [(5, "a")], activeByUniverse := [(0, [])], buffers := [()]
        currSeq := { steps := [("a", { UniverseID := 0, Effect := 0, Next := [] })]
                     initialOperations := [] } }
    let res := sr.ProcessFrame markerOps 5 0
    res.1.awaitingTime = [((5 : Time), "a")] ∧
    lookupAssoc res.1.currSeq.steps "a" =
      some { UniverseID := 0, Effect := 0, Next := [] } ∧
    res.1.queueOf 0 = [] ∧ res.2 = false := by
  decide


set_option maxHeartbeats 1600000 in
/-- C6: when the portal faction changes to an owned faction (ENL or RES),
`updatePortal` immediately installs the takeover-pulse sequence
(`createFadePulseSeq` of the faction colour, 1.5 s period) on the sequence
runner, and enqueues behind it (on the cleared pending-sequence queue) an
owned-portal sequence in which, for each of the 16 shaft universes `i`, the
three steps `in i` (250 ms fade to the faction colour), `solid i` (timed
solid of duration `125 ms × portal level`) and `out i` (500 ms fade to
black) are chained `in → solid → out`, each `in i` also chains to
`in ((i+2) mod 16)`, and the initial operations start `in0` and `in1`. -/
theorem updatePortal_faction_change_owned (fr : PortalFrameFn) (p : Portal)
    (newStatus : PortalStatus) (wall : Time) (rand : Nat → Time)
    (hchange : p.currentStatus.Faction ≠ newStatus.Faction)
    (howned : newStatus.Faction = Faction.ENL ∨ newStatus.Faction = Faction.RES) :
    ∃ seqOwned : Sequence PortalEffect,
      p.updatePortal fr newStatus wall rand = some
        { p with
            seqBuf := (p.seqBuf.clear).enqueue seqOwned
            sr := p.sr.InitSequence (portalOps fr)
              (createFadePulseSeq (RGBAFromRGBHex (factionColor newStatus.Faction))
                (1500 * millisecond)) wall wall } ∧
      seqOwned.initialOperations = [⟨"in0", 0⟩, ⟨"in1", 0⟩] ∧
      (∀ i, i < numShaftWindows →
        lookupAssoc seqOwned.steps ("in" ++ toString i) =
          some { UniverseID := i
                 Effect := NewInterpolateToHexRGB (factionColor newStatus.Faction)
                   (250 * millisecond)
                 Next := [⟨"solid" ++ toString i, 0⟩,
                          ⟨"in" ++ toString ((i + 2) % numShaftWindows), 0⟩] } ∧
        lookupAssoc seqOwned.steps ("solid" ++ toString i) =
          some { UniverseID := i
                 Effect := NewTimedSolid (RGBAFromRGBHex (factionColor newStatus.Faction))
                   (ownedHoldTime newStatus.Level)
                 Next := [⟨"out" ++ toString i, 0⟩] } ∧
        lookupAssoc seqOwned.steps ("out" ++ toString i) =
          some { UniverseID := i
                 Effect := NewInterpolateToHexRGB 0 (500 * millisecond)
                 Next := [] }) := by
  refine ⟨{ steps := ownedStepMap (factionColor newStatus.Faction)
              (ownedHoldTime newStatus.Level)
            initialOperations := [⟨"in0", 0⟩, ⟨"in1", 0⟩] }, ?_, rfl, ?_⟩
  · rw [Portal.updatePortal, if_pos hchange, if_pos howned]
    rfl
  · intro i hi
    have hi16 : i < 16 := hi
    interval_cases i <;> exact ⟨rfl, rfl, rfl⟩


/-- Witness for `updatePortal_faction_change_owned`: a neutral portal taken
by the Enlightened at level 3. -/
theorem updatePortal_faction_change_owned_witness :
    (NewPortal.currentStatus.Faction ≠ (⟨Faction.ENL, 3, []⟩ : PortalStatus).Faction ∧
     ((⟨Faction.ENL, 3, []⟩ : PortalStatus).Faction = Faction.ENL ∨
      (⟨Faction.ENL, 3, []⟩ : PortalStatus).Faction = Faction.RES)) ∧
    (∃ seqOwned : Sequence PortalEffect,
      NewPortal.updatePortal (fun e b _ => (e, b, false)) ⟨Faction.ENL, 3, []⟩ 0
          (fun _ => 0) = some
        { NewPortal with
            seqBuf := (NewPortal.seqBuf.clear).enqueue seqOwned
            sr := NewPortal.sr.InitSequence (portalOps (fun e b _ => (e, b, false)))
              (createFadePulseSeq
                (RGBAFromRGBHex (factionColor (⟨Faction.ENL, 3, []⟩ : PortalStatus).Faction))
                (1500 * millisecond)) 0 0 } ∧
      seqOwned.initialOperations = [⟨"in0", 0⟩, ⟨"in1", 0⟩] ∧
      (∀ i, i < numShaftWindows →
        lookupAssoc seqOwned.steps ("in" ++ toString i) =
          some { UniverseID := i
                 Effect := NewInterpolateToHexRGB
                   (factionColor (⟨Faction.ENL, 3, []⟩ : PortalStatus).Faction)
                   (250 * millisecond)
                 Next := [⟨"solid" ++ toString i, 0⟩,
                          ⟨"in" ++ toString ((i + 2) % numShaftWindows), 0⟩] } ∧
        lookupAssoc seqOwned.steps ("solid" ++ toString i) =
          some { UniverseID := i
                 Effect := NewTimedSolid
                   (RGBAFromRGBHex (factionColor (⟨Faction.ENL, 3, []⟩ : PortalStatus).Faction))
                   (ownedHoldTime (⟨Faction.ENL, 3, []⟩ : PortalStatus).Level)
                 Next := [⟨"out" ++ toString i, 0⟩] } ∧
        lookupAssoc seqOwned.steps ("out" ++ toString i) =
          some { UniverseID := i
                 Effect := NewInterpolateToHexRGB 0 (500 * millisecond)
                 Next := [] })) :=
  ⟨⟨by decide, by decide⟩,
   updatePortal_faction_change_owned (fun e b _ => (e, b, false)) NewPortal
     ⟨Faction.ENL, 3, []⟩ 0 (fun _ => 0) (by decide) (by decide)⟩

/-- Unfolding the `updateHoldStep` fold that `updateHoldTime` performs: when
every present `solid i` step's effect is a `Solid`, the fold succeeds,
rewrites exactly those steps' hold durations, and leaves every other step
and the initial operations unchanged. -/
theorem updateHoldTime_fold (holdTime : Time) :
    ∀ (idxs : List Nat) (seq : Sequence PortalEffect),
      ((idxs.map (fun i => "solid" ++ toString i)).Nodup) →
      (∀ i ∈ idxs, ∀ step, lookupAssoc seq.steps ("solid" ++ toString i) = some step →
        ∃ col dur, step.Effect.kind = AnimEffect.solid col dur) →
      ∃ sq, idxs.foldlM (updateHoldStep holdTime) seq = some sq ∧
        (∀ nm, (∀ i ∈ idxs, nm ≠ "solid" ++ toString i) →
          lookupAssoc sq.steps nm = lookupAssoc seq.steps nm) ∧
        (∀ i ∈ idxs, ∀ step col dur,
          lookupAssoc seq.steps ("solid" ++ toString i) = some step →
          step.Effect.kind = AnimEffect.solid col dur →
          lookupAssoc sq.steps ("solid" ++ toString i) =
            some { step with Effect := { step.Effect with
                     kind := AnimEffect.solid col (some holdTime) } }) ∧
        sq.initialOperations = seq.initialOperations := by
  intro idxs
  induction idxs with
  | nil =>
    intro seq _ _
    exact ⟨seq, rfl, fun nm _ => rfl, fun i hi => absurd hi (by simp), rfl⟩
  | cons i0 rest ih =>
    intro seq hnd hsolid
    have hndTail : (rest.map (fun i => "solid" ++ toString i)).Nodup := by
      rw [List.map_cons] at hnd
      exact hnd.of_cons
    have hheadNotMem : ("solid" ++ toString i0) ∉
        rest.map (fun i => "solid" ++ toString i) := by
      rw [List.map_cons] at hnd
      exact (List.nodup_cons.mp hnd).1
    have hname_ne : ∀ i ∈ rest, ("solid" ++ toString i) ≠ ("solid" ++ toString i0) := by
      intro i hi heq
      exact hheadNotMem (heq ▸ List.mem_map_of_mem _ hi)
    rcases hl : lookupAssoc seq.steps ("solid" ++ toString i0) with _ | step0
    · have hstep : updateHoldStep holdTime seq i0 = some seq := by
        simp [updateHoldStep, hl]
      obtain ⟨sq, hfold, huntouched, hrew, hiops⟩ :=
        ih seq hndTail (fun i hi => hsolid i (by simp [hi]))
      refine ⟨sq, ?_, ?_, ?_, hiops⟩
      · rw [List.foldlM_cons, hstep]
        simpa using hfold
      · intro nm hnm
        exact huntouched nm (fun i hi => hnm i (by simp [hi]))
      · intro i hi step col dur hlk hk
        rcases List.mem_cons.mp hi with rfl | hmem
        · rw [hl] at hlk
          cases hlk
        · exact hrew i hmem step col dur hlk hk
    · obtain ⟨col, dur, hkind⟩ := hsolid i0 (by simp) step0 hl
      have hstep : updateHoldStep holdTime seq i0 =
          some (seq.setEffect ("solid" ++ toString i0)
            { step0.Effect with kind := AnimEffect.solid col (some holdTime) }) := by
        simp [updateHoldStep, hl, hkind]
      have hlook1 : ∀ i ∈ rest,
          lookupAssoc (seq.setEffect ("solid" ++ toString i0)
              { step0.Effect with kind := AnimEffect.solid col (some holdTime) }).steps
            ("solid" ++ toString i) =
          lookupAssoc seq.steps ("solid" ++ toString i) := by
        intro i hi
        rw [lookupAssoc_setEffect, if_neg (hname_ne i hi)]
      obtain ⟨sq, hfold, huntouched, hrew, hiops⟩ :=
        ih (seq.setEffect ("solid" ++ toString i0)
              { step0.Effect with kind := AnimEffect.solid col (some holdTime) })
          hndTail
          (fun i hi step h => hsolid i (by simp [hi]) step ((hlook1 i hi) ▸ h))
      refine ⟨sq, ?_, ?_, ?_, ?_⟩
      · rw [List.foldlM_cons, hstep]
        simpa using hfold
      · intro nm hnm
        rw [huntouched nm (fun i hi => hnm i (by simp [hi])), lookupAssoc_setEffect,
          if_neg (hnm i0 (by simp))]
      · intro i hi step col' dur' hlk hk
        rcases List.mem_cons.mp hi with rfl | hmem
        · rw [hl] at hlk
          injection hlk with hlk'
          subst hlk'
          rw [hkind] at hk
          injection hk with hcol hdur
          subst hcol
          rw [huntouched _ (fun i hi => (hname_ne i hi).symm),
            lookupAssoc_setEffect, if_pos rfl, hl]
          rfl
        · refine hrew i hmem step col' dur' ?_ hk
          rw [hlook1 i hmem]
          exact hlk
      · rw [hiops]
        rfl

/-- C7: when the portal level changes while the owning faction stays the
same owned faction, no new sequence is installed — the runner's queues,
buffers, the pending-sequence queue and everything else in the portal stay
untouched — and instead the duration parameter of every `solid i` step of
the currently installed sequence is rewritten in place to
`125 ms × new_level`; all other steps and the initial operations are
unchanged.  The hypothesis `hsolid` records that the present `solid i`
steps carry `Solid` effects, which Go's type assertion
`step.Effect.(*Solid)` requires to not panic. -/
theorem updatePortal_level_change_rewrites_hold (fr : PortalFrameFn) (p : Portal)
    (newStatus : PortalStatus) (wall : Time) (rand : Nat → Time)
    (hfaction : p.currentStatus.Faction = newStatus.Faction)
    (hlevel : p.currentStatus.Level ≠ newStatus.Level)
    (howned : newStatus.Faction = Faction.ENL ∨ newStatus.Faction = Faction.RES)
    (hsolid : ∀ i, i < numShaftWindows → ∀ step,
      lookupAssoc p.sr.currSeq.steps ("solid" ++ toString i) = some step →
      ∃ col dur, step.Effect.kind = AnimEffect.solid col dur) :
    ∃ sq, p.updatePortal fr newStatus wall rand =
        some { p with sr := { p.sr with currSeq := sq } } ∧
      sq.initialOperations = p.sr.currSeq.initialOperations ∧
      (∀ nm, (∀ i, i < numShaftWindows → nm ≠ "solid" ++ toString i) →
        lookupAssoc sq.steps nm = lookupAssoc p.sr.currSeq.steps nm) ∧
      (∀ i, i < numShaftWindows → ∀ step col dur,
        lookupAssoc p.sr.currSeq.steps ("solid" ++ toString i) = some step →
        step.Effect.kind = AnimEffect.solid col dur →
        lookupAssoc sq.steps ("solid" ++ toString i) =
          some { step with Effect := { step.Effect with
                   kind := AnimEffect.solid col (some (ownedHoldTime newStatus.Level)) } }) := by
  obtain ⟨sq, hfold, hunt, hrew, hiops⟩ :=
    updateHoldTime_fold (ownedHoldTime newStatus.Level) (List.range numShaftWindows)
      p.sr.currSeq (by decide)
      (fun i hi => hsolid i (List.mem_range.mp hi))
  refine ⟨sq, ?_, hiops, ?_, ?_⟩
  · rw [Portal.updatePortal, if_neg (fun hne => hne hfaction), if_pos hlevel,
      if_pos howned, updateHoldTime, hfold, Option.map_some']
  · intro nm hnm
    exact hunt nm (fun i hi => hnm i (List.mem_range.mp hi))
  · intro i hi step col dur hlk hk
    exact hrew i (List.mem_range.mpr hi) step col dur hlk hk

/-- Witness for `updatePortal_level_change_rewrites_hold`: an Enlightened
portal whose level changes from 3 to 6 while the installed sequence has no
steps at all (the rewrite clauses hold vacuously, everything else is
untouched). -/
theorem updatePortal_level_change_rewrites_hold_witness :
    let p : Portal :=
      { currentStatus := ⟨Faction.ENL, 3, []⟩
        sr := { awaitingTime := [], activeByUniverse := [], buffers := []
                currSeq := { steps := [], initialOperations := [] } }
        seqBuf := newCircBuf _
        resonators := [] }
    (p.currentStatus.Faction = (⟨Faction.ENL, 6, []⟩ : PortalStatus).Faction ∧
     p.currentStatus.Level ≠ (⟨Faction.ENL, 6, []⟩ : PortalStatus).Level ∧
     ((⟨Faction.ENL, 6, []⟩ : PortalStatus).Faction = Faction.ENL ∨
      (⟨Faction.ENL, 6, []⟩ : PortalStatus).Faction = Faction.RES) ∧
     (∀ i, i < numShaftWindows → ∀ step,
       lookupAssoc p.sr.currSeq.steps ("solid" ++ toString i) = some step →
       ∃ col dur, step.Effect.kind = AnimEffect.solid col dur)) ∧
    (∃ sq, p.updatePortal (fun e b _ => (e, b, false)) ⟨Faction.ENL, 6, []⟩ 0 (fun _ => 0) =
        some { p with sr := { p.sr with currSeq := sq } } ∧
      sq.initialOperations = p.sr.currSeq.initialOperations ∧
      (∀ nm, (∀ i, i < numShaftWindows → nm ≠ "solid" ++ toString i) →
        lookupAssoc sq.steps nm = lookupAssoc p.sr.currSeq.steps nm) ∧
      (∀ i, i < numShaftWindows → ∀ step col dur,
        lookupAssoc p.sr.currSeq.steps ("solid" ++ toString i) = some step →
        step.Effect.kind = AnimEffect.solid col dur →
        lookupAssoc sq.steps ("solid" ++ toString i) =
          some { step with Effect := { step.Effect with
                   kind := AnimEffect.solid col
                     (some (ownedHoldTime (⟨Faction.ENL, 6, []⟩ : PortalStatus).Level)) } })) :=
  ⟨⟨by decide, by decide, by decide,
    fun i hi step h => absurd h (by simp [lookupAssoc])⟩,
   updatePortal_level_change_rewrites_hold (fun e b _ => (e, b, false))
     { currentStatus := ⟨Faction.ENL, 3, []⟩
       sr := { awaitingTime := [], activeByUniverse := [], buffers := []
               currSeq := { steps := [], initialOperations := [] } }
       seqBuf := newCircBuf _
       resonators := [] }
     ⟨Faction.ENL, 6, []⟩ 0 (fun _ => 0)
     (by decide) (by decide) (by decide)
     (fun i hi step h => absurd h (by simp [lookupAssoc]))⟩

end Mawt
